import Mathlib

/-!
# Cluster-count selection core of the Melbourne-Footfalls plotting utilities

A shallow embedding of the decision logic in
`Python scripts/custom_modules/plot_funs.py`, together with the marker
styling helpers of the mapping functions.  Real-valued scores are modelled
by `ℚ`; Python exceptions are modelled by `Option` (a `none` result is a
raised error).

The selection logic lives in `plot_best_k`:

* `plot_subplot` picks `scores.index(max(scores))` when `is_higher_better`
  and `scores.index(min(scores))` otherwise (embedded as
  `select_by_extremum`);
* the distortion subplot instead calls `find_elbow(scores)`, a function
  imported from `modelling_funs`, whose code is not among the sources
  here; it is modelled from the spec (see `select_by_elbow`);
* the chosen index is mapped back to the sorted table's
  `Number_of_Clusters` column (embedded as `evaluate`);
* `plot_best_k` first sorts the table in place with
  `df_scores.sort_values(by='Number_of_Clusters', inplace=True)`
  (embedded as `sortByK` / `evaluate_table_after`).
-/

/-- From `plot_subplot` in `plot_best_k`:
`scores.index(max(scores)) if is_higher_better else scores.index(min(scores))`.
Python's `max`/`min` raise on an empty list (the spec's `EmptyInputError`),
modelled by `none`; `list.index` returns the first index whose element
equals the extremal value. -/
def select_by_extremum (values : List ℚ) (higher_is_better : Bool) : Option Nat :=
  match (if higher_is_better then values.max? else values.min?) with
  | none => none
  | some target => some (values.findIdx (fun v => decide (v = target)))

/-- First index of a member of the list (Python's `list.index`): it is in
bounds, holds the value, and no earlier index holds it. -/
theorem findIdx_mem_spec (values : List ℚ) (m : ℚ) (hm : m ∈ values) :
    values.findIdx (fun v => decide (v = m)) < values.length ∧
    values.getD (values.findIdx (fun v => decide (v = m))) 0 = m ∧
    ∀ j, j < values.findIdx (fun v => decide (v = m)) → values.getD j 0 ≠ m := by
  have hex : ∃ x ∈ values, (fun v => decide (v = m)) x := ⟨m, hm, by simp⟩
  have hlt := List.findIdx_lt_length_of_exists hex
  refine ⟨hlt, ?_, ?_⟩
  · have := @List.findIdx_getElem _ (fun v => decide (v = m)) values hlt
    rw [List.getD_eq_getElem _ _ hlt]
    simpa using this
  · intro j hj
    have hjlt : j < values.length := lt_trans hj hlt
    have := @List.not_of_lt_findIdx _ (fun v => decide (v = m)) values j hj
    rw [List.getD_eq_getElem _ _ hjlt]
    simpa using this

/-- Claim C2: on a non-empty sequence, `select_by_extremum` with
`higher_is_better = true` returns the first index `i` with
`values[i] ≥ values[j]` for all `j`, and with `higher_is_better = false`
the first index `i` with `values[i] ≤ values[j]` for all `j`; on
`[3, 5, 5, 2]` with `higher_is_better = true` it returns index 1. -/
theorem select_by_extremum_spec (values : List ℚ) (h : values ≠ []) :
    (∃ i, select_by_extremum values true = some i ∧ i < values.length ∧
      (∀ j, j < values.length → values.getD j 0 ≤ values.getD i 0) ∧
      (∀ i', i' < i → ∃ j, j < values.length ∧ values.getD i' 0 < values.getD j 0)) ∧
    (∃ i, select_by_extremum values false = some i ∧ i < values.length ∧
      (∀ j, j < values.length → values.getD i 0 ≤ values.getD j 0) ∧
      (∀ i', i' < i → ∃ j, j < values.length ∧ values.getD j 0 < values.getD i' 0)) ∧
    select_by_extremum [(3 : ℚ), 5, 5, 2] true = some 1 := by
  obtain ⟨m, hmax⟩ : ∃ m, values.max? = some m := by
    cases hv : values.max? with
    | none => exact absurd (List.max?_eq_none_iff.mp hv) h
    | some m => exact ⟨m, rfl⟩
  obtain ⟨w, hmin⟩ : ∃ w, values.min? = some w := by
    cases hv : values.min? with
    | none => exact absurd (List.min?_eq_none_iff.mp hv) h
    | some w => exact ⟨w, rfl⟩
  have hm_mem : m ∈ values := List.max?_mem max_choice hmax
  have hw_mem : w ∈ values := List.min?_mem min_choice hmin
  have hm_ub : ∀ x ∈ values, x ≤ m :=
    (List.max?_le_iff (fun _ _ _ => max_le_iff) hmax).mp le_rfl
  have hw_lb : ∀ x ∈ values, w ≤ x :=
    (List.le_min?_iff (fun _ _ _ => le_min_iff) hmin).mp le_rfl
  refine ⟨?_, ?_, ?_⟩
  · obtain ⟨hi_lt, hi_val, hi_first⟩ := findIdx_mem_spec values m hm_mem
    refine ⟨values.findIdx (fun v => decide (v = m)), ?_, hi_lt, ?_, ?_⟩
    · simp [select_by_extremum, hmax]
    · intro j hj
      rw [hi_val, List.getD_eq_getElem _ _ hj]
      exact hm_ub _ (values.getElem_mem hj)
    · intro i' hi'
      have hi'lt : i' < values.length := lt_trans hi' hi_lt
      have hne := hi_first i' hi'
      have hle : values.getD i' 0 ≤ m := by
        rw [List.getD_eq_getElem _ _ hi'lt]
        exact hm_ub _ (values.getElem_mem hi'lt)
      refine ⟨values.findIdx (fun v => decide (v = m)), hi_lt, ?_⟩
      rw [hi_val]
      exact lt_of_le_of_ne hle hne
  · obtain ⟨hi_lt, hi_val, hi_first⟩ := findIdx_mem_spec values w hw_mem
    refine ⟨values.findIdx (fun v => decide (v = w)), ?_, hi_lt, ?_, ?_⟩
    · simp [select_by_extremum, hmin]
    · intro j hj
      rw [hi_val, List.getD_eq_getElem _ _ hj]
      exact hw_lb _ (values.getElem_mem hj)
    · intro i' hi'
      have hi'lt : i' < values.length := lt_trans hi' hi_lt
      have hne := hi_first i' hi'
      have hge : w ≤ values.getD i' 0 := by
        rw [List.getD_eq_getElem _ _ hi'lt]
        exact hw_lb _ (values.getElem_mem hi'lt)
      refine ⟨values.findIdx (fun v => decide (v = w)), hi_lt, ?_⟩
      rw [hi_val]
      exact lt_of_le_of_ne hge (Ne.symm hne)
  · decide

/-- Claim C2 witness at the concrete input `[3, 5, 5, 2]`. -/
theorem select_by_extremum_spec_witness :
    ([(3 : ℚ), 5, 5, 2] ≠ []) ∧
    (∃ i, select_by_extremum [(3 : ℚ), 5, 5, 2] true = some i ∧
      i < ([(3 : ℚ), 5, 5, 2]).length ∧
      (∀ j, j < ([(3 : ℚ), 5, 5, 2]).length →
        ([(3 : ℚ), 5, 5, 2]).getD j 0 ≤ ([(3 : ℚ), 5, 5, 2]).getD i 0) ∧
      (∀ i', i' < i → ∃ j, j < ([(3 : ℚ), 5, 5, 2]).length ∧
        ([(3 : ℚ), 5, 5, 2]).getD i' 0 < ([(3 : ℚ), 5, 5, 2]).getD j 0)) :=
  ⟨by decide, (select_by_extremum_spec [(3 : ℚ), 5, 5, 2] (by decide)).1⟩

/-- Claim C4: `select_by_extremum` fails (the spec's `EmptyInputError`,
modelled by `none`) exactly on the empty sequence; on a non-empty sequence
it returns an index. -/
theorem select_by_extremum_none_iff (values : List ℚ) (higher_is_better : Bool) :
    select_by_extremum values higher_is_better = none ↔ values = [] := by
  cases values with
  | nil => cases higher_is_better <;> simp [select_by_extremum]
  | cons x xs =>
    cases higher_is_better <;>
      simp [select_by_extremum, List.max?_cons', List.min?_cons']

/-- Modelled from the spec: `find_elbow` is imported from `modelling_funs`,
which is not among the sources. The spec: treat the sequence as points
`(i, values[i])`, draw the line through the first point `(0, values[0])`
and the last point `(n-1, values[n-1])`, and measure each interior point's
perpendicular distance to that line. This is the squared distance
`((y2-y1)*x0 - (x2-x1)*y0 + x2*y1 - y2*x1)^2 / ((y2-y1)^2 + (x2-x1)^2)`
with `(x1,y1)` the first and `(x2,y2)` the last point; squaring is
order-preserving on distances, so maximising it selects the same index. -/
def elbowDistSq (values : List ℚ) (i : Nat) : ℚ :=
  let x1 : ℚ := 0
  let y1 : ℚ := values.getD 0 0
  let x2 : ℚ := (values.length - 1 : ℕ)
  let y2 : ℚ := values.getD (values.length - 1) 0
  let x0 : ℚ := i
  let y0 : ℚ := values.getD i 0
  ((y2 - y1) * x0 - (x2 - x1) * y0 + x2 * y1 - y2 * x1) ^ 2
    / ((y2 - y1) ^ 2 + (x2 - x1) ^ 2)

/-- Fold that keeps the current champion index and replaces it only on a
strictly larger value, so the first index achieving the maximum wins. -/
def firstArgmaxAux (f : Nat → ℚ) : List Nat → Nat → Nat
  | [], best => best
  | i :: rest, best => firstArgmaxAux f rest (if f best < f i then i else best)

/-- Modelled from the spec: `select_by_elbow` fails (the spec's
`InsufficientDataError`, modelled by `none`) when fewer than 3 points are
supplied, and otherwise returns the first interior index
(`1, …, length - 2`) whose perpendicular distance to the first-to-last
line is maximal. -/
def select_by_elbow (values : List ℚ) : Option Nat :=
  if values.length < 3 then none
  else some (firstArgmaxAux (elbowDistSq values)
      ((List.range (values.length - 3)).map (fun a => a + 2)) 1)

/-- The strict-replacement fold returns the first index of
`best :: rest` (in list order, which is ascending) achieving the maximal
value of `f`. -/
theorem firstArgmaxAux_spec (f : Nat → ℚ) :
    ∀ (rest : List Nat) (best : Nat),
      (∀ j ∈ rest, best < j) → List.Pairwise (· < ·) rest →
      (firstArgmaxAux f rest best = best ∨ firstArgmaxAux f rest best ∈ rest) ∧
      best ≤ firstArgmaxAux f rest best ∧
      f best ≤ f (firstArgmaxAux f rest best) ∧
      (∀ j ∈ rest, f j ≤ f (firstArgmaxAux f rest best)) ∧
      (best < firstArgmaxAux f rest best → f best < f (firstArgmaxAux f rest best)) ∧
      (∀ j ∈ rest, j < firstArgmaxAux f rest best → f j < f (firstArgmaxAux f rest best)) := by
  intro rest
  induction rest with
  | nil =>
    intro best _ _
    simp [firstArgmaxAux]
  | cons i rest' ih =>
    intro best hlt hpw
    have hbi : best < i := hlt i (List.mem_cons_self i rest')
    have hlt' : ∀ j ∈ rest', i < j := fun j hj => (List.pairwise_cons.mp hpw).1 j hj
    have hpw' : List.Pairwise (· < ·) rest' := (List.pairwise_cons.mp hpw).2
    by_cases hfi : f best < f i
    · have hstep : firstArgmaxAux f (i :: rest') best = firstArgmaxAux f rest' i := by
        simp [firstArgmaxAux, hfi]
      obtain ⟨hmem, hle, hfle, hub, hstrict, hfirst⟩ := ih i hlt' hpw'
      rw [hstep]
      refine ⟨?_, ?_, ?_, ?_, ?_, ?_⟩
      · rcases hmem with h | h
        · exact Or.inr (by rw [h]; exact List.mem_cons_self i rest')
        · exact Or.inr (List.mem_cons_of_mem i h)
      · exact le_of_lt (lt_of_lt_of_le hbi hle)
      · exact le_of_lt (lt_of_lt_of_le hfi hfle)
      · intro j hj
        rcases List.mem_cons.mp hj with h | h
        · exact h ▸ hfle
        · exact hub j h
      · intro _
        exact lt_of_lt_of_le hfi hfle
      · intro j hj hjr
        rcases List.mem_cons.mp hj with h | h
        · subst h
          exact hstrict hjr
        · exact hfirst j h hjr
    · have hstep : firstArgmaxAux f (i :: rest') best = firstArgmaxAux f rest' best := by
        simp [firstArgmaxAux, hfi]
      have hfile : f i ≤ f best := le_of_not_lt hfi
      obtain ⟨hmem, hle, hfle, hub, hstrict, hfirst⟩ :=
        ih best (fun j hj => lt_trans hbi (hlt' j hj)) hpw'
      rw [hstep]
      refine ⟨?_, ?_, hfle, ?_, hstrict, ?_⟩
      · rcases hmem with h | h
        · exact Or.inl h
        · exact Or.inr (List.mem_cons_of_mem i h)
      · exact hle
      · intro j hj
        rcases List.mem_cons.mp hj with h | h
        · exact h ▸ le_trans hfile hfle
        · exact hub j h
      · intro j hj hjr
        rcases List.mem_cons.mp hj with h | h
        · subst h
          have hbr : best < firstArgmaxAux f rest' best := lt_trans hbi hjr
          exact lt_of_le_of_lt hfile (hstrict hbr)
        · exact hfirst j h hjr

/-- Interior indices produced by `select_by_elbow` are exactly
`2 ≤ j ≤ length - 2` (the tail of the interior after the starting
champion 1). -/
theorem mem_elbow_rest (n j : Nat) (h : 3 ≤ n) :
    j ∈ (List.range (n - 3)).map (fun a => a + 2) ↔ 2 ≤ j ∧ j ≤ n - 2 := by
  simp only [List.mem_map, List.mem_range]
  constructor
  · rintro ⟨a, ha, rfl⟩
    omega
  · rintro ⟨h2, hle⟩
    exact ⟨j - 2, by omega, by omega⟩

/-- Claim C3: on a sequence of length at least 3, `select_by_elbow`
returns the first interior index whose perpendicular distance to the line
through the first and last points is maximal (squared distances order the
points identically), and on `[10, 9, 8, 2, 1]` it returns index 2. -/
theorem select_by_elbow_spec (values : List ℚ) (h : 3 ≤ values.length) :
    (∃ i, select_by_elbow values = some i ∧ 1 ≤ i ∧ i ≤ values.length - 2 ∧
      (∀ j, 1 ≤ j → j ≤ values.length - 2 →
        elbowDistSq values j ≤ elbowDistSq values i) ∧
      (∀ j, 1 ≤ j → j < i → elbowDistSq values j < elbowDistSq values i)) ∧
    select_by_elbow [(10 : ℚ), 9, 8, 2, 1] = some 2 := by
  constructor
  · set n := values.length with hn
    set rest := (List.range (n - 3)).map (fun a => a + 2) with hrest
    have hone : ∀ j ∈ rest, 1 < j := by
      intro j hj
      have := (mem_elbow_rest n j h).mp hj
      omega
    have hpw : List.Pairwise (· < ·) rest :=
      (List.pairwise_lt_range (n - 3)).map _ (fun a b hab => by omega)
    obtain ⟨hmem, hle, hfle, hub, hstrict, hfirst⟩ :=
      firstArgmaxAux_spec (elbowDistSq values) rest 1 hone hpw
    refine ⟨firstArgmaxAux (elbowDistSq values) rest 1, ?_, hle, ?_, ?_, ?_⟩
    · simp only [select_by_elbow]
      rw [if_neg (by omega)]
    · rcases hmem with hm | hm
      · rw [hm]; omega
      · exact ((mem_elbow_rest n _ h).mp hm).2
    · intro j h1 h2
      rcases Nat.lt_or_ge j 2 with hj2 | hj2
      · have : j = 1 := by omega
        rw [this]
        exact hfle
      · exact hub j ((mem_elbow_rest n j h).mpr ⟨hj2, h2⟩)
    · intro j h1 hjr
      rcases Nat.lt_or_ge j 2 with hj2 | hj2
      · have : j = 1 := by omega
        rw [this] at hjr ⊢
        exact hstrict hjr
      · have hr2 : firstArgmaxAux (elbowDistSq values) rest 1 ≤ n - 2 := by
          rcases hmem with hm | hm
          · omega
          · exact ((mem_elbow_rest n _ h).mp hm).2
        exact hfirst j ((mem_elbow_rest n j h).mpr ⟨hj2, by omega⟩) hjr
  · norm_num [select_by_elbow, firstArgmaxAux, elbowDistSq, List.range_succ]

/-- Claim C3 witness at the concrete input `[10, 9, 8, 2, 1]`. -/
theorem select_by_elbow_spec_witness :
    3 ≤ ([(10 : ℚ), 9, 8, 2, 1]).length ∧
    (∃ i, select_by_elbow [(10 : ℚ), 9, 8, 2, 1] = some i ∧ 1 ≤ i ∧
      i ≤ ([(10 : ℚ), 9, 8, 2, 1]).length - 2 ∧
      (∀ j, 1 ≤ j → j ≤ ([(10 : ℚ), 9, 8, 2, 1]).length - 2 →
        elbowDistSq [(10 : ℚ), 9, 8, 2, 1] j ≤ elbowDistSq [(10 : ℚ), 9, 8, 2, 1] i) ∧
      (∀ j, 1 ≤ j → j < i →
        elbowDistSq [(10 : ℚ), 9, 8, 2, 1] j < elbowDistSq [(10 : ℚ), 9, 8, 2, 1] i)) :=
  ⟨by decide, (select_by_elbow_spec [(10 : ℚ), 9, 8, 2, 1] (by decide)).1⟩

/-- Claim C5: `select_by_elbow` fails (the spec's `InsufficientDataError`,
modelled by `none`) exactly when fewer than 3 points are supplied; on a
sequence of length at least 3 it returns an index. -/
theorem select_by_elbow_none_iff (values : List ℚ) :
    select_by_elbow values = none ↔ values.length < 3 := by
  by_cases h : values.length < 3
  · simp [select_by_elbow, h]
  · simp [select_by_elbow, h]

/-- One row of the `find_best_k` table consumed by `plot_best_k`:
`Number_of_Clusters` and the four metric columns. -/
structure ScoreRow where
  k : Nat
  silhouette : ℚ
  distortion : ℚ
  davies_bouldin : ℚ
  calinski_harabasz : ℚ
deriving DecidableEq

/-- `df_scores.sort_values(by='Number_of_Clusters', ...)`: the table
sorted by the `k` column. -/
def sortByK (t : List ScoreRow) : List ScoreRow :=
  t.insertionSort (fun a b => a.k ≤ b.k)

/-- The four `(k, score)` pairs reported by `plot_best_k`, keyed by
metric name. -/
structure BestK where
  silhouette : Nat × ℚ
  distortion : Nat × ℚ
  davies_bouldin : Nat × ℚ
  calinski_harabasz : Nat × ℚ
deriving DecidableEq

/-- The selection logic of `plot_best_k`: sort the table by k, extract
the four score columns, pick an index per metric (`plot_subplot` with
`is_higher_better=True` for silhouette and calinski_harabasz, with
`is_higher_better=False` for davies_bouldin, and `find_elbow` for
distortion), and pair `df_scores['Number_of_Clusters'].iloc[index]` with
the score at that index. A selector failure aborts the whole
computation. -/
def evaluate (t : List ScoreRow) : Option BestK :=
  match select_by_extremum ((sortByK t).map (fun r => r.silhouette)) true,
        select_by_elbow ((sortByK t).map (fun r => r.distortion)),
        select_by_extremum ((sortByK t).map (fun r => r.davies_bouldin)) false,
        select_by_extremum ((sortByK t).map (fun r => r.calinski_harabasz)) true with
  | some i1, some i2, some i3, some i4 =>
      some ⟨(((sortByK t).map (fun r => r.k)).getD i1 0,
             ((sortByK t).map (fun r => r.silhouette)).getD i1 0),
            (((sortByK t).map (fun r => r.k)).getD i2 0,
             ((sortByK t).map (fun r => r.distortion)).getD i2 0),
            (((sortByK t).map (fun r => r.k)).getD i3 0,
             ((sortByK t).map (fun r => r.davies_bouldin)).getD i3 0),
            (((sortByK t).map (fun r => r.k)).getD i4 0,
             ((sortByK t).map (fun r => r.calinski_harabasz)).getD i4 0)⟩
  | _, _, _, _ => none

/-- The sorted table and its column extractions keep the table's
length. -/
theorem sortByK_map_length (t : List ScoreRow) (f : ScoreRow → ℚ) :
    ((sortByK t).map f).length = t.length := by
  simp [sortByK, List.length_insertionSort]

/-- An index returned by `select_by_extremum` is the first index of the
extremal value; in particular it is in bounds. -/
theorem select_by_extremum_lt_length (values : List ℚ) (b : Bool) (i : Nat)
    (h : select_by_extremum values b = some i) : i < values.length := by
  have hcase : ∃ m, m ∈ values ∧ i = values.findIdx (fun v => decide (v = m)) := by
    cases b with
    | true =>
      cases hv : values.max? with
      | none => simp [select_by_extremum, hv] at h
      | some m =>
        refine ⟨m, List.max?_mem max_choice hv, ?_⟩
        simp [select_by_extremum, hv] at h
        exact h.symm
    | false =>
      cases hv : values.min? with
      | none => simp [select_by_extremum, hv] at h
      | some m =>
        refine ⟨m, List.min?_mem min_choice hv, ?_⟩
        simp [select_by_extremum, hv] at h
        exact h.symm
  obtain ⟨m, hm, rfl⟩ := hcase
  exact (findIdx_mem_spec values m hm).1

/-- An index returned by `select_by_elbow` is in bounds (it is an
interior index). -/
theorem select_by_elbow_lt_length (values : List ℚ) (i : Nat)
    (h : select_by_elbow values = some i) : i < values.length := by
  unfold select_by_elbow at h
  by_cases h3 : values.length < 3
  · rw [if_pos h3] at h
    exact absurd h (by simp)
  · rw [if_neg h3] at h
    simp only [Option.some.injEq] at h
    have hn : 3 ≤ values.length := by omega
    have hone : ∀ j ∈ (List.range (values.length - 3)).map (fun a => a + 2), 1 < j := by
      intro j hj
      have := (mem_elbow_rest values.length j hn).mp hj
      omega
    have hpw : List.Pairwise (· < ·)
        ((List.range (values.length - 3)).map (fun a => a + 2)) :=
      (List.pairwise_lt_range (values.length - 3)).map _ (fun a b hab => by omega)
    obtain ⟨hmem, -, -, -, -, -⟩ :=
      firstArgmaxAux_spec (elbowDistSq values) _ 1 hone hpw
    rw [← h]
    rcases hmem with hm | hm
    · omega
    · have := (mem_elbow_rest values.length _ hn).mp hm
      omega

/-- On a table of at least 3 rows, all four metric selectors succeed. -/
theorem evaluate_selectors_some (t : List ScoreRow) (h : 3 ≤ t.length) :
    ∃ i1 i2 i3 i4,
      select_by_extremum ((sortByK t).map (fun r => r.silhouette)) true = some i1 ∧
      select_by_elbow ((sortByK t).map (fun r => r.distortion)) = some i2 ∧
      select_by_extremum ((sortByK t).map (fun r => r.davies_bouldin)) false = some i3 ∧
      select_by_extremum ((sortByK t).map (fun r => r.calinski_harabasz)) true = some i4 := by
  have hne : ∀ f : ScoreRow → ℚ, ((sortByK t).map f) ≠ [] := by
    intro f hc
    have hl := congrArg List.length hc
    rw [sortByK_map_length] at hl
    simp only [List.length_nil] at hl
    omega
  obtain ⟨i1, e1⟩ := Option.ne_none_iff_exists'.mp
    (fun hc => hne _ ((select_by_extremum_none_iff _ _).mp hc))
  obtain ⟨i2, e2⟩ := Option.ne_none_iff_exists'.mp
    (fun hc => by
      have hl := (select_by_elbow_none_iff ((sortByK t).map (fun r => r.distortion))).mp hc
      rw [sortByK_map_length] at hl
      omega)
  obtain ⟨i3, e3⟩ := Option.ne_none_iff_exists'.mp
    (fun hc => hne _ ((select_by_extremum_none_iff _ _).mp hc))
  obtain ⟨i4, e4⟩ := Option.ne_none_iff_exists'.mp
    (fun hc => hne _ ((select_by_extremum_none_iff _ _).mp hc))
  exact ⟨i1, i2, i3, i4, e1, e2, e3, e4⟩

/-- `evaluate` fails exactly on tables of fewer than 3 rows. -/
theorem evaluate_eq_none_iff (t : List ScoreRow) :
    evaluate t = none ↔ t.length < 3 := by
  rcases Nat.lt_or_ge t.length 3 with h | h
  · have h2 : select_by_elbow ((sortByK t).map (fun r => r.distortion)) = none := by
      rw [select_by_elbow_none_iff, sortByK_map_length]
      exact h
    have hev : evaluate t = none := by
      unfold evaluate
      rw [h2]
      cases select_by_extremum ((sortByK t).map (fun r => r.silhouette)) true <;> rfl
    simp [hev, h]
  · obtain ⟨i1, i2, i3, i4, e1, e2, e3, e4⟩ := evaluate_selectors_some t h
    constructor
    · intro hc
      unfold evaluate at hc
      rw [e1, e2, e3, e4] at hc
      exact absurd hc (by simp)
    · intro hc
      omega

/-- The k column keeps the table's length through sorting. -/
theorem sortByK_map_k_length (t : List ScoreRow) :
    ((sortByK t).map (fun r => r.k)).length = t.length := by
  simp [sortByK, List.length_insertionSort]

/-- A k drawn (in bounds) from the sorted table's k column belongs to the
original table's k column. -/
theorem sortByK_getD_k_mem (t : List ScoreRow) (i : Nat) (hi : i < t.length) :
    ((sortByK t).map (fun r => r.k)).getD i 0 ∈ t.map (fun r => r.k) := by
  have hlen : i < ((sortByK t).map (fun r => r.k)).length := by
    rw [sortByK_map_k_length]
    exact hi
  rw [List.getD_eq_getElem _ _ hlen]
  exact ((List.perm_insertionSort (fun a b => a.k ≤ b.k) t).map
    (fun r => r.k)).mem_iff.mp (List.getElem_mem hlen)

/-- Claim C1: `evaluate` applies extremum selection with higher-is-better
to the silhouette and calinski_harabasz columns, extremum selection with
lower-is-better to davies_bouldin, and elbow selection to distortion, and
returns exactly four `(k, score)` pairs (the `BestK` record), each `k`
being the value of the table's k column at the selected index. -/
theorem evaluate_spec (t : List ScoreRow) (h : 3 ≤ t.length) :
    ∃ r, evaluate t = some r ∧
    (∃ i, select_by_extremum ((sortByK t).map (fun x => x.silhouette)) true = some i ∧
      r.silhouette = (((sortByK t).map (fun x => x.k)).getD i 0,
        ((sortByK t).map (fun x => x.silhouette)).getD i 0) ∧
      r.silhouette.1 ∈ t.map (fun x => x.k)) ∧
    (∃ i, select_by_elbow ((sortByK t).map (fun x => x.distortion)) = some i ∧
      r.distortion = (((sortByK t).map (fun x => x.k)).getD i 0,
        ((sortByK t).map (fun x => x.distortion)).getD i 0) ∧
      r.distortion.1 ∈ t.map (fun x => x.k)) ∧
    (∃ i, select_by_extremum ((sortByK t).map (fun x => x.davies_bouldin)) false = some i ∧
      r.davies_bouldin = (((sortByK t).map (fun x => x.k)).getD i 0,
        ((sortByK t).map (fun x => x.davies_bouldin)).getD i 0) ∧
      r.davies_bouldin.1 ∈ t.map (fun x => x.k)) ∧
    (∃ i, select_by_extremum ((sortByK t).map (fun x => x.calinski_harabasz)) true = some i ∧
      r.calinski_harabasz = (((sortByK t).map (fun x => x.k)).getD i 0,
        ((sortByK t).map (fun x => x.calinski_harabasz)).getD i 0) ∧
      r.calinski_harabasz.1 ∈ t.map (fun x => x.k)) := by
  obtain ⟨i1, i2, i3, i4, e1, e2, e3, e4⟩ := evaluate_selectors_some t h
  have hi1 : i1 < t.length := by
    have := select_by_extremum_lt_length _ _ _ e1
    rwa [sortByK_map_length] at this
  have hi2 : i2 < t.length := by
    have := select_by_elbow_lt_length _ _ e2
    rwa [sortByK_map_length] at this
  have hi3 : i3 < t.length := by
    have := select_by_extremum_lt_length _ _ _ e3
    rwa [sortByK_map_length] at this
  have hi4 : i4 < t.length := by
    have := select_by_extremum_lt_length _ _ _ e4
    rwa [sortByK_map_length] at this
  have hev : evaluate t =
      some ⟨(((sortByK t).map (fun r => r.k)).getD i1 0,
             ((sortByK t).map (fun r => r.silhouette)).getD i1 0),
            (((sortByK t).map (fun r => r.k)).getD i2 0,
             ((sortByK t).map (fun r => r.distortion)).getD i2 0),
            (((sortByK t).map (fun r => r.k)).getD i3 0,
             ((sortByK t).map (fun r => r.davies_bouldin)).getD i3 0),
            (((sortByK t).map (fun r => r.k)).getD i4 0,
             ((sortByK t).map (fun r => r.calinski_harabasz)).getD i4 0)⟩ := by
    unfold evaluate
    rw [e1, e2, e3, e4]
  exact ⟨_, hev,
    ⟨i1, e1, rfl, sortByK_getD_k_mem t i1 hi1⟩,
    ⟨i2, e2, rfl, sortByK_getD_k_mem t i2 hi2⟩,
    ⟨i3, e3, rfl, sortByK_getD_k_mem t i3 hi3⟩,
    ⟨i4, e4, rfl, sortByK_getD_k_mem t i4 hi4⟩⟩

/-- A 5-row evaluation table with k from 2 to 6 and distinct metric
columns (the spec's example shape). -/
def exTable : List ScoreRow :=
  [⟨2, 1, 100, 5, 10⟩, ⟨3, 3, 60, 4, 30⟩, ⟨4, 5, 30, 1, 50⟩,
   ⟨5, 4, 20, 2, 40⟩, ⟨6, 2, 10, 3, 20⟩]

/-- Claim C1 witness at the concrete 5-row table `exTable`. -/
theorem evaluate_spec_witness :
    3 ≤ exTable.length ∧
    (∃ r, evaluate exTable = some r ∧
    (∃ i, select_by_extremum ((sortByK exTable).map (fun x => x.silhouette)) true = some i ∧
      r.silhouette = (((sortByK exTable).map (fun x => x.k)).getD i 0,
        ((sortByK exTable).map (fun x => x.silhouette)).getD i 0) ∧
      r.silhouette.1 ∈ exTable.map (fun x => x.k)) ∧
    (∃ i, select_by_elbow ((sortByK exTable).map (fun x => x.distortion)) = some i ∧
      r.distortion = (((sortByK exTable).map (fun x => x.k)).getD i 0,
        ((sortByK exTable).map (fun x => x.distortion)).getD i 0) ∧
      r.distortion.1 ∈ exTable.map (fun x => x.k)) ∧
    (∃ i, select_by_extremum ((sortByK exTable).map (fun x => x.davies_bouldin)) false = some i ∧
      r.davies_bouldin = (((sortByK exTable).map (fun x => x.k)).getD i 0,
        ((sortByK exTable).map (fun x => x.davies_bouldin)).getD i 0) ∧
      r.davies_bouldin.1 ∈ exTable.map (fun x => x.k)) ∧
    (∃ i, select_by_extremum ((sortByK exTable).map (fun x => x.calinski_harabasz)) true = some i ∧
      r.calinski_harabasz = (((sortByK exTable).map (fun x => x.k)).getD i 0,
        ((sortByK exTable).map (fun x => x.calinski_harabasz)).getD i 0) ∧
      r.calinski_harabasz.1 ∈ exTable.map (fun x => x.k))) :=
  ⟨by decide, evaluate_spec exTable (by decide)⟩

/-- A 3-row table with a duplicated k value (malformed by the spec's
rules). -/
def dupTable : List ScoreRow :=
  [⟨2, 1, 30, 1, 1⟩, ⟨2, 2, 20, 2, 2⟩, ⟨3, 3, 10, 3, 3⟩]

/-- Claim C6 counterexample: a table whose k column has a duplicate (so
it is malformed: its k values are neither strictly increasing nor
duplicate-free) is not rejected; `evaluate` raises no error on it. -/
theorem evaluate_accepts_duplicate_k :
    ¬ (dupTable.map (fun r => r.k)).Nodup ∧
    ¬ List.Pairwise (· < ·) (dupTable.map (fun r => r.k)) ∧
    evaluate dupTable ≠ none := by
  refine ⟨by decide, by decide, fun hc => ?_⟩
  have hlen := (evaluate_eq_none_iff dupTable).mp hc
  exact absurd hlen (by decide)

/-- Claim C6 amended: an empty table, or any table of fewer than 3 rows
(too few for elbow selection), is rejected with an error; tables with
non-increasing or duplicate k values are not rejected (the table is
sorted by k and processed). There is never a partial result: on at least
3 rows a complete four-metric result is returned, otherwise an error is
raised. -/
theorem evaluate_complete_or_error (t : List ScoreRow) :
    (evaluate t = none ↔ t.length < 3) ∧
    (3 ≤ t.length → ∃ r, evaluate t = some r) := by
  refine ⟨evaluate_eq_none_iff t, fun h => ?_⟩
  exact Option.ne_none_iff_exists'.mp
    (fun hc => by
      have := (evaluate_eq_none_iff t).mp hc
      omega)

/-- Claim C6 amended witness at the concrete 5-row table `exTable`. -/
theorem evaluate_complete_or_error_witness :
    3 ≤ exTable.length ∧ (∃ r, evaluate exTable = some r) :=
  ⟨by decide, (evaluate_complete_or_error exTable).2 (by decide)⟩

/-- `plot_best_k` sorts the caller's table in place
(`df_scores.sort_values(by='Number_of_Clusters', inplace=True)`); this is
the state of the input table after the call. -/
def evaluate_table_after (t : List ScoreRow) : List ScoreRow := sortByK t

/-- A 3-row table whose k column is not sorted. -/
def unsortedTable : List ScoreRow :=
  [⟨4, 0, 30, 0, 0⟩, ⟨2, 0, 20, 0, 0⟩, ⟨3, 0, 10, 0, 0⟩]

/-- Claim C7 counterexample: the input table is mutated by the call; a
table whose rows are not ordered by k differs afterwards. -/
theorem evaluate_mutates_input :
    evaluate_table_after unsortedTable ≠ unsortedTable := by decide

/-- Claim C7 amended: the result of `evaluate` is a function of the
table's contents alone, but the call is not side-effect-free: the input
table is sorted by k in place, so after the call it holds the same rows
permuted into k order, and it is unchanged only when it was already
sorted by k. -/
theorem evaluate_table_after_spec (t : List ScoreRow) :
    List.Perm (evaluate_table_after t) t ∧
    List.Sorted (fun a b => a.k ≤ b.k) (evaluate_table_after t) ∧
    (List.Sorted (fun a b => a.k ≤ b.k) t → evaluate_table_after t = t) := by
  haveI : IsTotal ScoreRow (fun a b => a.k ≤ b.k) := ⟨fun a b => Nat.le_total a.k b.k⟩
  haveI : IsTrans ScoreRow (fun a b => a.k ≤ b.k) := ⟨fun a b c hab hbc => Nat.le_trans hab hbc⟩
  exact ⟨List.perm_insertionSort _ t, List.sorted_insertionSort _ t,
    fun hs => List.Sorted.insertionSort_eq hs⟩

/-- A 3-row table already sorted by k. -/
def sortedTable : List ScoreRow :=
  [⟨2, 0, 30, 0, 0⟩, ⟨3, 0, 20, 0, 0⟩, ⟨4, 0, 10, 0, 0⟩]

/-- Claim C7 amended witness at the concrete sorted table
`sortedTable`. -/
theorem evaluate_table_after_spec_witness :
    List.Sorted (fun a b => a.k ≤ b.k) sortedTable ∧
    evaluate_table_after sortedTable = sortedTable :=
  ⟨by decide, (evaluate_table_after_spec sortedTable).2.2 (by decide)⟩

/-- The colour palette of `plot_map_gradient_color`. In the Python source
the literals for light red and light green are adjacent with no comma
between them, so they concatenate into a single element (written here as
the same concatenation). -/
def gradientColors : List String :=
  ["red", "blue", "green", "purple", "orange", "pink", "gray", "darkred",
   "white", "beige", "darkblue", "darkgreen", "cadetblue", "darkpurple",
   "lightblue", "lightred" ++ "lightgreen", "black", "lightgray"]

/-- `colors[cluster % len(colors)]` in `plot_map_gradient_color`: the
base colour assigned to a cluster. -/
def gradientBaseColor (cluster : Nat) : String :=
  gradientColors.getD (cluster % gradientColors.length) ""

/-- Claim C8: the palette of `plot_map_gradient_color` has 18 elements,
not 19: entry 15 is the concatenated string `lightredlightgreen`, the
string `lightgreen` is not in the palette, the base colour is
`colors[cluster % 18]`, and no cluster is ever assigned `lightgreen`. -/
theorem gradient_colors_spec :
    gradientColors.length = 18 ∧
    gradientColors.getD 15 "" = "lightredlightgreen" ∧
    "lightgreen" ∉ gradientColors ∧
    (∀ cluster, gradientBaseColor cluster = gradientColors.getD (cluster % 18) "") ∧
    (∀ cluster, gradientBaseColor cluster ≠ "lightgreen") := by
  refine ⟨by decide, by decide, by decide, fun cluster => rfl, fun cluster => ?_⟩
  have hlt : cluster % gradientColors.length < gradientColors.length :=
    Nat.mod_lt _ (by decide)
  have hmem : gradientBaseColor cluster ∈ gradientColors := by
    unfold gradientBaseColor
    rw [List.getD_eq_getElem _ _ hlt]
    exact List.getElem_mem hlt
  intro hc
  rw [hc] at hmem
  exact absurd hmem (by decide)

/-- The marker colour list of `plot_map`. -/
def mapColors : List String :=
  ["red", "blue", "green", "purple", "orange", "darkred", "lightred",
   "beige", "darkblue", "darkgreen"]

/-- The marker icon list of `plot_map`. -/
def mapIcons : List String :=
  ["info-sign", "cloud", "star", "heart", "flag", "euro", "ok",
   "remove-sign", "flash", "question-sign"]

/-- The (colour, icon) pair of a cluster's marker in `plot_map`:
`colors[cluster % len(colors)]` and
`icons[cluster // len(colors) % len(icons)]`. -/
def markerStyle (cluster : Nat) : String × String :=
  (mapColors.getD (cluster % mapColors.length) "",
   mapIcons.getD (cluster / mapColors.length % mapIcons.length) "")

/-- Indices below the length of a duplicate-free list are distinguished
by the list's entries. -/
theorem getD_inj_of_nodup (l : List String) (hnd : l.Nodup) (i j : Nat)
    (hi : i < l.length) (hj : j < l.length)
    (h : l.getD i "" = l.getD j "") : i = j := by
  rw [List.getD_eq_getElem _ _ hi, List.getD_eq_getElem _ _ hj] at h
  exact (List.Nodup.getElem_inj_iff hnd).mp h

/-- Claim C9: in `plot_map` the marker colour is `colors[cluster % 10]`
and the icon is `icons[(cluster // 10) % 10]`; cluster labels 0 through
99 get pairwise distinct (colour, icon) pairs, and labels differing by
exactly 100 get identical pairs. -/
theorem markerStyle_spec :
    (∀ c, markerStyle c =
      (mapColors.getD (c % 10) "", mapIcons.getD (c / 10 % 10) "")) ∧
    (∀ a b, a < 100 → b < 100 → markerStyle a = markerStyle b → a = b) ∧
    (∀ c, markerStyle (c + 100) = markerStyle c) := by
  refine ⟨fun c => rfl, fun a b ha hb hab => ?_, fun c => ?_⟩
  · have hcol : mapColors.getD (a % 10) "" = mapColors.getD (b % 10) "" :=
      congrArg Prod.fst hab
    have hico : mapIcons.getD (a / 10 % 10) "" = mapIcons.getD (b / 10 % 10) "" :=
      congrArg Prod.snd hab
    have h1 : a % 10 = b % 10 :=
      getD_inj_of_nodup mapColors (by decide) _ _
        (Nat.mod_lt _ (by decide)) (Nat.mod_lt _ (by decide)) hcol
    have h2 : a / 10 % 10 = b / 10 % 10 :=
      getD_inj_of_nodup mapIcons (by decide) _ _
        (Nat.mod_lt _ (by decide)) (Nat.mod_lt _ (by decide)) hico
    omega
  · have h1 : (c + 100) % 10 = c % 10 := by omega
    have h2 : (c + 100) / 10 % 10 = c / 10 % 10 := by omega
    show (mapColors.getD ((c + 100) % 10) "",
          mapIcons.getD ((c + 100) / 10 % 10) "") =
         (mapColors.getD (c % 10) "", mapIcons.getD (c / 10 % 10) "")
    rw [h1, h2]

/-- Claim C9 witness: the injectivity on labels below 100, applied at the
concrete label 7. -/
theorem markerStyle_spec_witness :
    (7 : Nat) < 100 ∧ (7 : Nat) = 7 :=
  ⟨by decide, markerStyle_spec.2.1 7 7 (by decide) (by decide) rfl⟩

/-- Python `int()` applied to a real number: truncation toward zero. -/
def pyInt (q : ℚ) : ℤ := if 0 ≤ q then Int.floor q else Int.ceil q

/-- `get_gradient_color`: with `factor = value / max_value`, each channel
is `int(white * (1 - factor) + base * factor)` with `white = 255`. The
base colour is the RGB triple Python obtains from
`ImageColor.getcolor(base_color, "RGB")`. -/
def get_gradient_color (base : ℤ × ℤ × ℤ) (value max_value : ℚ) : ℤ × ℤ × ℤ :=
  (pyInt (255 * (1 - value / max_value) + (base.1 : ℚ) * (value / max_value)),
   pyInt (255 * (1 - value / max_value) + (base.2.1 : ℚ) * (value / max_value)),
   pyInt (255 * (1 - value / max_value) + (base.2.2 : ℚ) * (value / max_value)))

/-- One channel of the gradient blend: `int()` is `Int.floor` here (the
blend is non-negative), and the result lies between the base channel and
255. -/
theorem gradientChannel_bounds (b : ℤ) (value max_value : ℚ)
    (hb0 : 0 ≤ b) (hb : b ≤ 255) (hv0 : 0 ≤ value) (hvm : value ≤ max_value)
    (hm : 0 < max_value) :
    pyInt (255 * (1 - value / max_value) + (b : ℚ) * (value / max_value)) =
      Int.floor (255 * (1 - value / max_value) + (b : ℚ) * (value / max_value)) ∧
    b ≤ pyInt (255 * (1 - value / max_value) + (b : ℚ) * (value / max_value)) ∧
    pyInt (255 * (1 - value / max_value) + (b : ℚ) * (value / max_value)) ≤ 255 := by
  set f := value / max_value with hf
  have hf0 : 0 ≤ f := div_nonneg hv0 (le_of_lt hm)
  have hf1 : f ≤ 1 := (div_le_one hm).mpr hvm
  have hbq : (b : ℚ) ≤ 255 := by exact_mod_cast hb
  have hbq0 : (0 : ℚ) ≤ (b : ℚ) := by exact_mod_cast hb0
  have hxb : (b : ℚ) ≤ 255 * (1 - f) + (b : ℚ) * f := by
    nlinarith [mul_nonneg (sub_nonneg.mpr hbq) (sub_nonneg.mpr hf1)]
  have hx255 : 255 * (1 - f) + (b : ℚ) * f ≤ 255 := by
    nlinarith [mul_nonneg (sub_nonneg.mpr hbq) hf0]
  have hx0 : (0 : ℚ) ≤ 255 * (1 - f) + (b : ℚ) * f := le_trans hbq0 hxb
  have heq : pyInt (255 * (1 - f) + (b : ℚ) * f) =
      Int.floor (255 * (1 - f) + (b : ℚ) * f) := if_pos hx0
  refine ⟨heq, ?_, ?_⟩
  · rw [heq]
    exact Int.le_floor.mpr (by exact_mod_cast hxb)
  · rw [heq]
    have hfl := Int.floor_le_floor hx255
    simpa using hfl

/-- One channel of the gradient blend at `value = max_value`: the base
channel comes back exactly. -/
theorem gradientChannel_at_max (b : ℤ) (max_value : ℚ) (hm : 0 < max_value) :
    pyInt (255 * (1 - max_value / max_value) + (b : ℚ) * (max_value / max_value)) = b := by
  rw [div_self (ne_of_gt hm)]
  have hb_eq : (255 : ℚ) * (1 - 1) + (b : ℚ) * 1 = (b : ℚ) := by ring
  rw [hb_eq]
  unfold pyInt
  rcases le_or_lt 0 b with hb | hb
  · rw [if_pos (by exact_mod_cast hb)]
    exact Int.floor_intCast b
  · rw [if_neg (not_le.mpr (by exact_mod_cast hb))]
    exact Int.ceil_intCast b

/-- Claim C10: for a base colour with channels in `[0, 255]` and
`0 ≤ value ≤ max_value`, `max_value > 0`, each channel of
`get_gradient_color` is `int(255 * (1 - value/max_value) +
base * (value/max_value))` (a floor, the blend being non-negative), lies
between `min(base, 255)` and 255 inclusive, and at `value = max_value`
the base colour is returned exactly. -/
theorem get_gradient_color_spec (base : ℤ × ℤ × ℤ) (value max_value : ℚ)
    (hb1 : 0 ≤ base.1 ∧ base.1 ≤ 255) (hb2 : 0 ≤ base.2.1 ∧ base.2.1 ≤ 255)
    (hb3 : 0 ≤ base.2.2 ∧ base.2.2 ≤ 255)
    (hv0 : 0 ≤ value) (hvm : value ≤ max_value) (hm : 0 < max_value) :
    get_gradient_color base value max_value =
      (Int.floor (255 * (1 - value / max_value) + (base.1 : ℚ) * (value / max_value)),
       Int.floor (255 * (1 - value / max_value) + (base.2.1 : ℚ) * (value / max_value)),
       Int.floor (255 * (1 - value / max_value) + (base.2.2 : ℚ) * (value / max_value))) ∧
    (min base.1 255 ≤ (get_gradient_color base value max_value).1 ∧
      (get_gradient_color base value max_value).1 ≤ 255) ∧
    (min base.2.1 255 ≤ (get_gradient_color base value max_value).2.1 ∧
      (get_gradient_color base value max_value).2.1 ≤ 255) ∧
    (min base.2.2 255 ≤ (get_gradient_color base value max_value).2.2 ∧
      (get_gradient_color base value max_value).2.2 ≤ 255) ∧
    (value = max_value → get_gradient_color base value max_value = base) := by
  obtain ⟨e1, l1, u1⟩ := gradientChannel_bounds base.1 value max_value
    hb1.1 hb1.2 hv0 hvm hm
  obtain ⟨e2, l2, u2⟩ := gradientChannel_bounds base.2.1 value max_value
    hb2.1 hb2.2 hv0 hvm hm
  obtain ⟨e3, l3, u3⟩ := gradientChannel_bounds base.2.2 value max_value
    hb3.1 hb3.2 hv0 hvm hm
  refine ⟨?_, ⟨?_, u1⟩, ⟨?_, u2⟩, ⟨?_, u3⟩, ?_⟩
  · show (pyInt _, pyInt _, pyInt _) = _
    rw [e1, e2, e3]
  · rw [min_eq_left hb1.2]
    exact l1
  · rw [min_eq_left hb2.2]
    exact l2
  · rw [min_eq_left hb3.2]
    exact l3
  · intro hv
    subst hv
    show (pyInt _, pyInt _, pyInt _) = (base.1, base.2.1, base.2.2)
    rw [gradientChannel_at_max base.1 _ hm, gradientChannel_at_max base.2.1 _ hm,
      gradientChannel_at_max base.2.2 _ hm]

/-- Claim C10 witness at the concrete base colour `(100, 0, 255)` with
`value = 1`, `max_value = 2`. -/
theorem get_gradient_color_spec_witness :
    get_gradient_color (100, 0, 255) 1 2 =
      (Int.floor ((255 : ℚ) * (1 - 1 / 2) + (100 : ℚ) * (1 / 2)),
       Int.floor ((255 : ℚ) * (1 - 1 / 2) + (0 : ℚ) * (1 / 2)),
       Int.floor ((255 : ℚ) * (1 - 1 / 2) + (255 : ℚ) * (1 / 2))) ∧
    (min (100 : ℤ) 255 ≤ (get_gradient_color (100, 0, 255) 1 2).1 ∧
      (get_gradient_color (100, 0, 255) 1 2).1 ≤ 255) ∧
    (min (0 : ℤ) 255 ≤ (get_gradient_color (100, 0, 255) 1 2).2.1 ∧
      (get_gradient_color (100, 0, 255) 1 2).2.1 ≤ 255) ∧
    (min (255 : ℤ) 255 ≤ (get_gradient_color (100, 0, 255) 1 2).2.2 ∧
      (get_gradient_color (100, 0, 255) 1 2).2.2 ≤ 255) ∧
    ((1 : ℚ) = 2 → get_gradient_color (100, 0, 255) 1 2 = (100, 0, 255)) :=
  get_gradient_color_spec (100, 0, 255) 1 2
    (by norm_num) (by norm_num) (by norm_num)
    (by norm_num) (by norm_num) (by norm_num)
